import Mathlib

/-!
Verification of the examiner repository's session/thread state machine and
grading orchestration, as a shallow embedding in Lean 4.

Conventions used throughout:
* Go `float64` score values are embedded as `ℚ`.  Every score in the
  program originates from `encoding/json` number decoding (finite values
  only) and is combined with `math.Max`/`math.Min`, `+`, `/`, `*`; on the
  (in)equalities stated here the rational semantics agrees with the float
  semantics.
* Go strings are embedded as `List Char` (one element per rune), so that
  `utf8.RuneCountInString` is `List.length` and rune slicing is `List.take`.
* The persistence layer (`internal/store`) is embedded as total state
  passing: SQL rows become records, tables become functions or lists, and
  store calls are assumed to succeed (the handlers treat store failures as
  transport-level 500s outside the claims considered here).
-/

namespace Examiner

/-! ## Data model (internal/model/model.go) -/

/-- Chat message roles (`model.Role`); `RoleLLM` is the assessor. -/
inductive Role where
  | student
  | teacher
  | system
  | llm
  deriving DecidableEq, Repr

/-- Session statuses (`model.SessionStatus`). -/
inductive SessionStatus where
  | inProgress
  | submitted
  | grading
  | graded
  | reviewed
  deriving DecidableEq, Repr

/-- Thread statuses (`model.ThreadStatus`); `opened` embeds `ThreadOpen`
("open" is a Lean keyword). -/
inductive ThreadStatus where
  | opened
  | answered
  | completed
  deriving DecidableEq, Repr

/-- One turn within a thread (`model.Message`), restricted to the fields
the claims read: author role and content. -/
structure Message where
  role : Role
  content : List Char
  deriving DecidableEq, Repr

/-- `llm.GradeResult` (internal/llm/llm.go): the structured payload parsed
from the assessor response. -/
structure GradeResult where
  score : ℚ
  maxPoints : ℤ
  feedback : List Char
  needFollowup : Bool
  followupQ : List Char
  deriving DecidableEq, Repr

/-! ## Response validator (internal/llm/llm.go, validateGradeResult) -/

/-- `maxFeedbackLen` constant from internal/llm/llm.go. -/
def maxFeedbackLen : ℕ := 5000

/-- `maxFollowupLen` constant from internal/llm/llm.go. -/
def maxFollowupLen : ℕ := 5000

/-- `validateGradeResult(result, maxPoints)`: clamps the score into
`[0, maxPoints]`, overwrites the echoed max-points with the configured
value, and truncates feedback and follow-up question to 5000 runes.
The Go function mutates in place and returns nothing; here it returns the
repaired record.  The `slog.Warn` observability calls have no effect on
the result and are not modelled. -/
def validateGradeResult (result : GradeResult) (maxPoints : ℤ) : GradeResult :=
  { result with
    score := max 0 (min (maxPoints : ℚ) result.score)
    maxPoints := maxPoints
    feedback :=
      if result.feedback.length > maxFeedbackLen then
        result.feedback.take maxFeedbackLen
      else result.feedback
    followupQ :=
      if result.followupQ.length > maxFollowupLen then
        result.followupQ.take maxFollowupLen
      else result.followupQ }

/-! ## Questions (internal/model/model.go) -/

/-- `model.Question`, restricted to the fields the claims read. -/
structure Question where
  text : List Char
  maxPoints : ℤ
  rubric : List Char
  modelAnswer : List Char
  deriving DecidableEq, Repr

/-! ## Thread engine: one respondent turn (internal/handler/handler.go,
handleAnswer, lines 280-302) -/

/-- The fixed separator prepended to a follow-up question when it is
concatenated into the stored assessor message. -/
def followupSeparator : List Char := "\n\n**Follow-up question:** ".toList

/-- Content of the assessor message appended by `handleAnswer`:
`llmText := result.Feedback`, extended with the separator and the
follow-up question exactly when `result.NeedFollowup && result.FollowupQ != ""`. -/
def llmMessageContent (result : GradeResult) : List Char :=
  if result.needFollowup = true ∧ result.followupQ ≠ [] then
    result.feedback ++ followupSeparator ++ result.followupQ
  else
    result.feedback

/-- New thread status chosen by `handleAnswer`: `ThreadAnswered`, replaced
by `ThreadCompleted` when `!result.NeedFollowup`. -/
def answerTurnStatus (result : GradeResult) : ThreadStatus :=
  if result.needFollowup = true then ThreadStatus.answered else ThreadStatus.completed

/-- The mutable per-thread state: its message list (append-only, in id
order) and its status row. -/
structure ThreadState where
  msgs : List Message
  status : ThreadStatus
  deriving DecidableEq, Repr

/-- One successful respondent turn on a thread (`handleAnswer`): the
student message is appended, `EvaluateAnswer` returns the parsed result
`raw` which is repaired by `validateGradeResult` against the question's
max points, the assessor message is appended, and the status is updated. -/
def answerStep (mp : ℤ) (s : ThreadState) (answer : List Char) (raw : GradeResult) :
    ThreadState :=
  let r := validateGradeResult raw mp
  { msgs := s.msgs ++ [⟨Role.student, answer⟩, ⟨Role.llm, llmMessageContent r⟩]
    status := answerTurnStatus r }

/-- `prompts.CountFollowups`: the number of assessor-authored
(`RoleLLM`) messages in the conversation. -/
def CountFollowups (messages : List Message) : ℕ :=
  messages.countP (fun m => decide (m.role = Role.llm))

/-- Thread states reachable under the code's `handleAnswer` as written:
the owning session must be `in_progress` and the answer nonempty, but no
guard inspects the thread status or the assessor's `need_followup` flag.
`maxFollowups` is carried only to state the claim (the handler passes it
to prompt building, which does not restrict the transition). -/
inductive ReachableThread (mp : ℤ) (maxFollowups : ℕ) : ThreadState → Prop where
  | init : ReachableThread mp maxFollowups ⟨[], ThreadStatus.opened⟩
  | step (s : ThreadState) (answer : List Char) (raw : GradeResult) :
      ReachableThread mp maxFollowups s → answer ≠ [] →
      ReachableThread mp maxFollowups (answerStep mp s answer raw)

/-- Thread states reachable when, additionally, turns are only accepted
for threads that are not yet `completed` and the assessor obeys the
prompt's instruction to stop requesting follow-ups once the configured
maximum is reached. -/
inductive ReachableThreadGuarded (mp : ℤ) (maxFollowups : ℕ) : ThreadState → Prop where
  | init : ReachableThreadGuarded mp maxFollowups ⟨[], ThreadStatus.opened⟩
  | step (s : ThreadState) (answer : List Char) (raw : GradeResult) :
      ReachableThreadGuarded mp maxFollowups s → answer ≠ [] →
      s.status ≠ ThreadStatus.completed →
      (maxFollowups ≤ CountFollowups s.msgs → raw.needFollowup = false) →
      ReachableThreadGuarded mp maxFollowups (answerStep mp s answer raw)

/-! ## Prompt builder (internal/llm/prompts/prompts.go) -/

/-- `extractStudentAnswer`: the content of the most recent
student-authored message (empty if there is none). -/
def extractStudentAnswer (messages : List Message) : List Char :=
  messages.foldl (fun lastStudent m =>
    if m.role = Role.student then m.content else lastStudent) []

/-- Go regexp `\s` (the class used by `\s*` in the sanitizer's tag
patterns): `[\t\n\f\r ]`. -/
def isGoRegexSpace (c : Char) : Bool :=
  c = '\t' ∨ c = '\n' ∨ c = '\x0c' ∨ c = '\r' ∨ c = ' '

/-- Go regexp `\w` (for the `\b` word boundary): `[0-9A-Za-z_]`. -/
def isWordChar (c : Char) : Bool :=
  ('0' ≤ c ∧ c ≤ '9') ∨ ('A' ≤ c ∧ c ≤ 'Z') ∨ ('a' ≤ c ∧ c ≤ 'z') ∨ c = '_'

/-- Case folding used by Go regexp's `(?i)`: ASCII case plus the only two
non-ASCII simple-fold orbit members reachable from the tag names'
letters (U+017F long s and U+212A Kelvin sign). -/
def foldChar (c : Char) : Char :=
  if c.toNat = 0x17F then 's'
  else if c.toNat = 0x212A then 'k'
  else c.toLower

/-- Matches the literal tag name case-insensitively against a prefix of
the text; returns the remainder on success. -/
def matchNameCI : List Char → List Char → Option (List Char)
  | [], s => some s
  | _ :: _, [] => none
  | n :: ns, c :: cs => if foldChar c = foldChar n then matchNameCI ns cs else none

/-- The `[^>]*>` part of the tag patterns: skip to the first `>` and
consume it (no match if the text has no `>`). -/
def matchBody (s : List Char) : Option (List Char) :=
  match s.dropWhile (fun c => decide (c ≠ '>')) with
  | [] => none
  | _ :: r => some r

/-- The `\b[^>]*>` part: the char after the tag name must not be a word
char (word boundary), then the body runs to the closing `>`. -/
def matchAfterName (s : List Char) : Option (List Char) :=
  match s with
  | [] => none
  | c :: _ => if isWordChar c then none else matchBody s

/-- The part of the tag pattern after `</?`: greedy `\s*`, the
case-insensitive name, the boundary and the body. -/
def matchTagOpen (name : List Char) (rest1 : List Char) : Option (List Char) :=
  (matchNameCI name (rest1.dropWhile isGoRegexSpace)).bind matchAfterName

/-- A single leftmost match attempt of the pattern
`(?i)</?\s*NAME\b[^>]*>` anchored at the start of `s`; returns the text
after the match.  (The optional `/`, the greedy `\s*` and the greedy
`[^>]*` are each deterministic for these patterns: `/`, the space class,
the name's first letter and `>` are pairwise disjoint.) -/
def matchTagAt (name : List Char) (s : List Char) : Option (List Char) :=
  match s with
  | [] => none
  | c :: rest =>
      if c = '<' then
        matchTagOpen name (if rest.head? = some '/' then rest.tail else rest)
      else none

/-- `regexp.ReplaceAllString(s, "")`: scan left to right, deleting each
leftmost non-overlapping match.  Fuelled recursion; every match consumes
at least the `<` and `>`, so fuel `s.length` never runs out (proved
below as fuel irrelevance). -/
def replaceTagFuel (name : List Char) : ℕ → List Char → List Char
  | _, [] => []
  | 0, s => s
  | fuel + 1, c :: rest =>
      match matchTagAt name (c :: rest) with
      | some rem => replaceTagFuel name fuel rem
      | none => c :: replaceTagFuel name fuel rest

/-- `regexp.ReplaceAllString(s, "")` for one tag pattern. -/
def replaceTag (name : List Char) (s : List Char) : List Char :=
  replaceTagFuel name s.length s

/-- The tag name of `studentAnswerRegex`. -/
def studentAnswerTag : List Char := "student-answer".toList

/-- The tag name of `systemInstructionsRegex`. -/
def systemInstructionsTag : List Char := "system-instructions".toList

/-- Go `unicode.IsSpace` (used by `strings.TrimSpace`): White_Space code
points. -/
def isUnicodeSpace (c : Char) : Bool :=
  let n := c.toNat
  n = 0x9 ∨ n = 0xA ∨ n = 0xB ∨ n = 0xC ∨ n = 0xD ∨ n = 0x20 ∨ n = 0x85 ∨
  n = 0xA0 ∨ n = 0x1680 ∨ (0x2000 ≤ n ∧ n ≤ 0x200A) ∨ n = 0x2028 ∨
  n = 0x2029 ∨ n = 0x202F ∨ n = 0x205F ∨ n = 0x3000

/-- `strings.TrimSpace`. -/
def trimSpace (s : List Char) : List Char :=
  ((s.dropWhile isUnicodeSpace).reverse.dropWhile isUnicodeSpace).reverse

/-- The literal placeholder substituted for an empty sanitized answer. -/
def noAnswerPlaceholder : List Char := "[No answer provided]".toList

/-- The explicit marker appended when an oversized answer is truncated. -/
def truncationMarker : List Char := "\n\n[Answer truncated due to length]".toList

/-- `sanitizeAnswer` (internal/llm/prompts/prompts.go): strip the
student-answer tags, then the system-instructions tags, trim surrounding
white space, substitute the placeholder if the result is empty, and for
results over 10,000 runes keep the first 10,000 and append the
truncation marker. -/
def sanitizeAnswer (answer : List Char) : List Char :=
  let a1 := replaceTag systemInstructionsTag (replaceTag studentAnswerTag answer)
  let a2 := trimSpace a1
  if a2 = [] then noAnswerPlaceholder
  else if a2.length > 10000 then a2.take 10000 ++ truncationMarker
  else a2

/-- `prompts.EvalData`: the data handed to the evaluation template. -/
structure EvalData where
  questionText : List Char
  maxPoints : ℤ
  rubric : List Char
  modelAnswer : List Char
  answer : List Char
  canFollowup : Bool
  deriving DecidableEq, Repr

/-- The data-building part of `prompts.BuildEvalPrompt`: the sanitized
latest student answer and the follow-up permission
`CountFollowups(messages) < maxFollowups`. -/
def BuildEvalData (question : Question) (messages : List Message) (maxFollowups : ℕ) :
    EvalData :=
  { questionText := question.text
    maxPoints := question.maxPoints
    rubric := question.rubric
    modelAnswer := question.modelAnswer
    answer := sanitizeAnswer (extractStudentAnswer messages)
    canFollowup := decide (CountFollowups messages < maxFollowups) }

/-- Modelled from the spec: the embedded evaluation template files
(`internal/llm/prompts/prompts/eval_*.txt`, loaded with `go:embed`) are
not among the provided sources.  Per the spec (§4.1) and the repository
test `TestBuildEvalSystemPrompt`, the rendered per-turn instructions
explicitly forbid another follow-up exactly when the template's
`CanFollowup` field is false. -/
def evalPromptForbidsFollowup (data : EvalData) : Bool :=
  !data.canFollowup

/-! ## Submission-time grading (internal/handler/handler.go, handleSubmit) -/

/-- Everything `handleSubmit` reads about one thread: the question's
configured max points, the thread's messages, and the outcome of the
`GradeThread` gateway call for it (`Except.error` carries the error text
of a failed call; `Except.ok` the parsed raw result, which `GradeThread`
passes through `validateGradeResult`). -/
structure SubmitThread where
  maxPoints : ℤ
  messages : List Message
  llmOutcome : Except (List Char) GradeResult
  deriving Repr

/-- What the grading loop persists and does for one thread: the
upserted score row (`LLMScore`, `LLMFeedback`), whether the gateway was
invoked for this thread, and whether the thread was marked `completed`. -/
structure ThreadOutcome where
  score : ℚ
  feedback : List Char
  calledGateway : Bool
  markedCompleted : Bool
  deriving DecidableEq, Repr

/-- One iteration of the grading loop in `handleSubmit`: a thread with
no messages gets score 0 and the literal feedback with no gateway call; a
failed gateway call gets score 0 and `"Grading error: "` plus the cause;
otherwise the validated result's score and feedback are upserted and the
thread is marked `completed`. -/
def gradeThreadStep (t : SubmitThread) : ThreadOutcome :=
  if t.messages = [] then
    { score := 0
      feedback := "No answer provided.".toList
      calledGateway := false
      markedCompleted := false }
  else
    match t.llmOutcome with
    | Except.error e =>
        { score := 0
          feedback := "Grading error: ".toList ++ e
          calledGateway := true
          markedCompleted := false }
    | Except.ok raw =>
        let r := validateGradeResult raw t.maxPoints
        { score := r.score
          feedback := r.feedback
          calledGateway := true
          markedCompleted := true }

/-- One loop iteration's effect on the running accumulators
`(totalScore, totalMaxPoints)`: only a successful gateway call adds to
the score total, while every thread adds its question's max points. -/
def submitAccStep (acc : ℚ × ℤ) (t : SubmitThread) : ℚ × ℤ :=
  if t.messages = [] then (acc.1, acc.2 + t.maxPoints)
  else
    match t.llmOutcome with
    | Except.error _ => (acc.1, acc.2 + t.maxPoints)
    | Except.ok raw =>
        (acc.1 + (validateGradeResult raw t.maxPoints).score, acc.2 + t.maxPoints)

/-- The two running accumulators of the grading loop after all threads
are processed. -/
def handleSubmitTotals (threads : List SubmitThread) : ℚ × ℤ :=
  threads.foldl submitAccStep (0, 0)

/-- The overall grade computed after the loop:
`(totalScore / totalMaxPoints) * 100`, or 0 unless `totalMaxPoints > 0`. -/
def overallGrade (threads : List SubmitThread) : ℚ :=
  let totals := handleSubmitTotals threads
  if 0 < totals.2 then totals.1 / (totals.2 : ℚ) * 100 else 0

/-! ## Session state and store operations (internal/store/store.go) -/

/-- One session's row joined with its (unique) grades row: status,
`submitted_at`, the automated `llm_grade`, and the review fields set by
`FinalizeGrade`.  Timestamps are abstracted as naturals. -/
structure SessionState where
  status : SessionStatus
  submittedAt : Option ℕ
  grade : Option ℚ
  finalGrade : Option ℚ
  reviewedBy : Option ℕ
  reviewedAt : Option ℕ
  deriving DecidableEq, Repr

/-- `store.UpdateSessionStatus`: writes the status unconditionally, and
additionally (re)writes `submitted_at` to the current time exactly when
the new status is `submitted`.  No ordering check of any kind. -/
def UpdateSessionStatus (now : ℕ) (sess : SessionState) (status : SessionStatus) :
    SessionState :=
  if status = SessionStatus.submitted then
    { sess with status := status, submittedAt := some now }
  else
    { sess with status := status }

/-- `store.UpsertGrade`: writes the automated grade for the session. -/
def UpsertGrade (sess : SessionState) (llmGrade : ℚ) : SessionState :=
  { sess with grade := some llmGrade }

/-- `store.FinalizeGrade`: sets the final grade, reviewer and review
timestamp. -/
def FinalizeGrade (now : ℕ) (sess : SessionState) (finalGrade : ℚ) (reviewerID : ℕ) :
    SessionState :=
  { sess with finalGrade := some finalGrade, reviewedBy := some reviewerID,
              reviewedAt := some now }

/-- `handleSubmit`'s effect on the session row: status `submitted`, then
`grading`, then the grading loop, then the grade upsert and status
`graded`. -/
def handleSubmit (now : ℕ) (sess : SessionState) (threads : List SubmitThread) :
    SessionState :=
  let s1 := UpdateSessionStatus now sess SessionStatus.submitted
  let s2 := UpdateSessionStatus now s1 SessionStatus.grading
  let s3 := UpsertGrade s2 (overallGrade threads)
  UpdateSessionStatus now s3 SessionStatus.graded

/-- The sequence of session snapshots observable during `handleSubmit`:
before, after the `submitted` write, after the `grading` write, and after
the final `graded` write. -/
def handleSubmitTrace (now : ℕ) (sess : SessionState) (threads : List SubmitThread) :
    List SessionState :=
  let s1 := UpdateSessionStatus now sess SessionStatus.submitted
  let s2 := UpdateSessionStatus now s1 SessionStatus.grading
  let s3 := UpdateSessionStatus now (UpsertGrade s2 (overallGrade threads))
    SessionStatus.graded
  [sess, s1, s2, s3]

/-- `handleFinalize`: `FinalizeGrade` then status `reviewed`. -/
def handleFinalize (now : ℕ) (sess : SessionState) (finalGrade : ℚ) (reviewerID : ℕ) :
    SessionState :=
  UpdateSessionStatus now (FinalizeGrade now sess finalGrade reviewerID)
    SessionStatus.reviewed

/-- The position of each status in the spec's forward order
`in_progress → submitted → grading → graded → reviewed`. -/
def statusRank : SessionStatus → ℕ
  | SessionStatus.inProgress => 0
  | SessionStatus.submitted => 1
  | SessionStatus.grading => 2
  | SessionStatus.graded => 3
  | SessionStatus.reviewed => 4

/-! ## Domain-error guards (internal/handler/handler.go, handleAnswer and
handleStartExam) -/

/-- The rejection outcomes of `handleAnswer` (HTTP 400/500 responses;
the process never dies). -/
inductive AnswerError where
  | emptyAnswer
  | sessionNotInProgress
  | llmFailed (cause : List Char)
  deriving DecidableEq, Repr

/-- `handleAnswer` over one thread: reject an empty answer, then reject
unless the owning session is `in_progress`; only then append the student
message, call the gateway, and on success append the assessor message
and update the status (`answerStep`).  On gateway failure the student
message is already durably appended and the turn is reported failed. -/
def handleAnswer (mp : ℤ) (sessStatus : SessionStatus) (s : ThreadState)
    (answer : List Char) (gateway : Except (List Char) GradeResult) :
    ThreadState × Option AnswerError :=
  if answer = [] then (s, some AnswerError.emptyAnswer)
  else if sessStatus ≠ SessionStatus.inProgress then
    (s, some AnswerError.sessionNotInProgress)
  else
    match gateway with
    | Except.error e =>
        ({ msgs := s.msgs ++ [⟨Role.student, answer⟩], status := s.status },
         some (AnswerError.llmFailed e))
    | Except.ok raw => (answerStep mp s answer raw, none)

/-- The rejection outcome of `handleStartExam`. -/
inductive StartError where
  | noQuestions
  deriving DecidableEq, Repr

/-- The store contents `handleStartExam` can create: sessions, and
threads tagged with their question id. -/
structure StartStore where
  sessions : List SessionState
  threads : List (ℕ × ThreadState)
  deriving DecidableEq, Repr

/-- A freshly created session row (`store.CreateSession`). -/
def freshSession : SessionState :=
  { status := SessionStatus.inProgress, submittedAt := none, grade := none,
    finalGrade := none, reviewedBy := none, reviewedAt := none }

/-- `handleStartExam` after the filter query: reject if the filtered
question list is empty; otherwise cap it to `numQuestions` when that is
positive and smaller, and atomically create the session with one `open`
thread per selected question.  (The optional shuffle permutes
`questions` before this point and cannot affect emptiness.) -/
def handleStartExam (st : StartStore) (numQuestions : ℕ) (questions : List ℕ) :
    StartStore × Option StartError :=
  if questions = [] then (st, some StartError.noQuestions)
  else
    let selected :=
      if 0 < numQuestions ∧ numQuestions < questions.length then
        questions.take numQuestions
      else questions
    ({ sessions := st.sessions ++ [freshSession]
       threads := st.threads ++ selected.map (fun q => (q, ⟨[], ThreadStatus.opened⟩)) },
     none)

/-! ## Score rows (internal/store/store.go, question_scores) -/

/-- One `question_scores` row: the automated score and feedback, plus
the optional teacher override (`teacher_score` is `NULL`-able,
`teacher_comment` defaults to the empty string). -/
structure QuestionScore where
  llmScore : ℚ
  llmFeedback : List Char
  teacherScore : Option ℚ
  teacherComment : List Char
  deriving DecidableEq, Repr

/-- `store.UpsertScore`: `INSERT ... ON CONFLICT(thread_id) DO UPDATE
SET llm_score = ?, llm_feedback = ?` — the insert path fills the teacher
columns with their defaults, the update path touches only the two
automated columns. -/
def UpsertScore (db : ℕ → Option QuestionScore) (threadID : ℕ)
    (llmScore : ℚ) (llmFeedback : List Char) : ℕ → Option QuestionScore :=
  fun t =>
    if t = threadID then
      some (match db threadID with
        | some old => { old with llmScore := llmScore, llmFeedback := llmFeedback }
        | none =>
            { llmScore := llmScore, llmFeedback := llmFeedback,
              teacherScore := none, teacherComment := [] })
    else db t

/-- `store.UpdateTeacherScore`: `UPDATE question_scores SET
teacher_score = ?, teacher_comment = ? WHERE thread_id = ?` — touches
only the two teacher columns, and is a no-op if the row is missing. -/
def UpdateTeacherScore (db : ℕ → Option QuestionScore) (threadID : ℕ)
    (score : ℚ) (comment : List Char) : ℕ → Option QuestionScore :=
  fun t =>
    if t = threadID then
      (db threadID).map (fun old =>
        { old with teacherScore := some score, teacherComment := comment })
    else db t

/-! ## C1: the validator is total and establishes its postconditions -/

/-- C1. The response validator is a total function (it is a plain Lean
function, defined for every assessor result and configured `maxPoints`);
for nonnegative configured `maxPoints`, after validation the score lies in
`[0, maxPoints]`, the result's `max_points` equals the configured value
regardless of what the assessor echoed, and feedback and follow-up texts
are capped at 5000 runes, truncated (first 5000 runes kept) when longer. -/
theorem validateGradeResult_spec (result : GradeResult) (maxPoints : ℤ)
    (hmp : 0 ≤ maxPoints) :
    let v := validateGradeResult result maxPoints
    0 ≤ v.score ∧ v.score ≤ (maxPoints : ℚ) ∧
    v.maxPoints = maxPoints ∧
    v.feedback.length ≤ maxFeedbackLen ∧
    v.followupQ.length ≤ maxFollowupLen ∧
    (result.feedback.length > maxFeedbackLen →
      v.feedback = result.feedback.take maxFeedbackLen) ∧
    (result.feedback.length ≤ maxFeedbackLen → v.feedback = result.feedback) ∧
    (result.followupQ.length > maxFollowupLen →
      v.followupQ = result.followupQ.take maxFollowupLen) ∧
    (result.followupQ.length ≤ maxFollowupLen → v.followupQ = result.followupQ) := by
  refine ⟨le_max_left 0 _, ?_, rfl, ?_, ?_, ?_, ?_, ?_, ?_⟩
  · have hmpq : (0 : ℚ) ≤ (maxPoints : ℚ) := by exact_mod_cast hmp
    have h1 : min (maxPoints : ℚ) result.score ≤ (maxPoints : ℚ) := min_le_left _ _
    exact max_le hmpq h1
  · show (if result.feedback.length > maxFeedbackLen then
        result.feedback.take maxFeedbackLen else result.feedback).length ≤ maxFeedbackLen
    split
    · simp
    · omega
  · show (if result.followupQ.length > maxFollowupLen then
        result.followupQ.take maxFollowupLen else result.followupQ).length ≤ maxFollowupLen
    split
    · simp
    · omega
  · intro h
    show (if result.feedback.length > maxFeedbackLen then
        result.feedback.take maxFeedbackLen else result.feedback) = _
    simp [h]
  · intro h
    show (if result.feedback.length > maxFeedbackLen then
        result.feedback.take maxFeedbackLen else result.feedback) = _
    simp [Nat.not_lt.mpr h]
  · intro h
    show (if result.followupQ.length > maxFollowupLen then
        result.followupQ.take maxFollowupLen else result.followupQ) = _
    simp [h]
  · intro h
    show (if result.followupQ.length > maxFollowupLen then
        result.followupQ.take maxFollowupLen else result.followupQ) = _
    simp [Nat.not_lt.mpr h]

/-- Witness for C1 at the spec's own scenario: raw score `-5` with
configured max points `10` (the validator clamps to the lower bound). -/
theorem validateGradeResult_spec_witness :
    (0 : ℤ) ≤ 10 ∧
    (let v := validateGradeResult
        ⟨-5, 99, "bad".toList, true, "why".toList⟩ 10
     0 ≤ v.score ∧ v.score ≤ (10 : ℚ) ∧ v.maxPoints = 10 ∧
     v.feedback.length ≤ maxFeedbackLen ∧ v.followupQ.length ≤ maxFollowupLen ∧
     ("bad".toList.length > maxFeedbackLen →
       v.feedback = "bad".toList.take maxFeedbackLen) ∧
     ("bad".toList.length ≤ maxFeedbackLen → v.feedback = "bad".toList) ∧
     ("why".toList.length > maxFollowupLen →
       v.followupQ = "why".toList.take maxFollowupLen) ∧
     ("why".toList.length ≤ maxFollowupLen → v.followupQ = "why".toList)) :=
  ⟨by decide, validateGradeResult_spec ⟨-5, 99, "bad".toList, true, "why".toList⟩ 10 (by decide)⟩

/-! ## C4: thread status after a successful respondent turn -/

/-- C4 counterexample: an assessor result that requests a follow-up but
supplies empty follow-up text falls into the claim's "otherwise" arm, yet
the code sets the thread status to `answered`, not `completed` (the
status switch tests only `NeedFollowup`). -/
theorem answerTurn_counterexample :
    ¬((⟨5, 10, "Good.".toList, true, []⟩ : GradeResult).needFollowup = true ∧
      (⟨5, 10, "Good.".toList, true, []⟩ : GradeResult).followupQ ≠ []) ∧
    answerTurnStatus ⟨5, 10, "Good.".toList, true, []⟩ ≠ ThreadStatus.completed ∧
    answerTurnStatus ⟨5, 10, "Good.".toList, true, []⟩ = ThreadStatus.answered ∧
    llmMessageContent ⟨5, 10, "Good.".toList, true, []⟩ = "Good.".toList := by
  decide

/-- C4 amended: after the assessor message is appended, the thread
status becomes `answered` exactly when the assessor requested a
follow-up (regardless of the follow-up text) and `completed` exactly when
it did not; the feedback and follow-up text are concatenated into the
stored message content exactly when a follow-up was requested with
non-empty text, and otherwise the content is the feedback alone. -/
theorem answerTurn_spec (r : GradeResult) :
    (answerTurnStatus r = ThreadStatus.answered ↔ r.needFollowup = true) ∧
    (answerTurnStatus r = ThreadStatus.completed ↔ r.needFollowup = false) ∧
    (r.needFollowup = true ∧ r.followupQ ≠ [] →
      llmMessageContent r = r.feedback ++ followupSeparator ++ r.followupQ) ∧
    (¬(r.needFollowup = true ∧ r.followupQ ≠ []) → llmMessageContent r = r.feedback) := by
  unfold answerTurnStatus llmMessageContent
  cases hr : r.needFollowup <;> by_cases hq : r.followupQ = [] <;> simp [hr, hq]

/-- Witness for C4 at a concrete follow-up-requesting result. -/
theorem answerTurn_spec_witness :
    (answerTurnStatus ⟨4, 10, "f".toList, true, "x".toList⟩ = ThreadStatus.answered ↔
      (⟨4, 10, "f".toList, true, "x".toList⟩ : GradeResult).needFollowup = true) ∧
    (answerTurnStatus ⟨4, 10, "f".toList, true, "x".toList⟩ = ThreadStatus.completed ↔
      (⟨4, 10, "f".toList, true, "x".toList⟩ : GradeResult).needFollowup = false) ∧
    ((⟨4, 10, "f".toList, true, "x".toList⟩ : GradeResult).needFollowup = true ∧
      (⟨4, 10, "f".toList, true, "x".toList⟩ : GradeResult).followupQ ≠ [] →
      llmMessageContent ⟨4, 10, "f".toList, true, "x".toList⟩ =
        "f".toList ++ followupSeparator ++ "x".toList) ∧
    (¬((⟨4, 10, "f".toList, true, "x".toList⟩ : GradeResult).needFollowup = true ∧
      (⟨4, 10, "f".toList, true, "x".toList⟩ : GradeResult).followupQ ≠ []) →
      llmMessageContent ⟨4, 10, "f".toList, true, "x".toList⟩ = "f".toList) :=
  answerTurn_spec ⟨4, 10, "f".toList, true, "x".toList⟩

/-! ## C6: the follow-up gate in the evaluation prompt -/

/-- C6. The can-follow-up flag handed to the evaluation prompt template
is true exactly when the count of assessor-authored messages is strictly
below the blueprint's maximum, and the rendered per-turn instructions
explicitly forbid another follow-up exactly when the count has reached
the maximum. -/
theorem buildEvalPrompt_followup_gate (question : Question)
    (messages : List Message) (maxFollowups : ℕ) :
    ((BuildEvalData question messages maxFollowups).canFollowup = true ↔
      CountFollowups messages < maxFollowups) ∧
    (evalPromptForbidsFollowup (BuildEvalData question messages maxFollowups) = true ↔
      maxFollowups ≤ CountFollowups messages) := by
  constructor
  · simp [BuildEvalData]
  · simp [BuildEvalData, evalPromptForbidsFollowup, Nat.not_lt]

/-! ## C9: domain errors are rejected without mutating state -/

/-- C9. An empty answer, or an answer against a session that is not
`in_progress`, is rejected with the corresponding domain error and the
thread state is returned unchanged (no message appended); starting an
exam from an empty filtered question set is rejected and the store is
returned unchanged (no session or thread created).  All three are
ordinary rejection values of total functions, not failures. -/
theorem domain_errors_reject (mp : ℤ) (sessStatus : SessionStatus)
    (s : ThreadState) (answer : List Char) (gw : Except (List Char) GradeResult)
    (st : StartStore) (numQuestions : ℕ)
    (h : answer = [] ∨ (answer ≠ [] ∧ sessStatus ≠ SessionStatus.inProgress)) :
    handleAnswer mp sessStatus s answer gw =
      (s, some (if answer = [] then AnswerError.emptyAnswer
                else AnswerError.sessionNotInProgress)) ∧
    handleStartExam st numQuestions [] = (st, some StartError.noQuestions) := by
  refine ⟨?_, by simp [handleStartExam]⟩
  rcases h with h | ⟨h1, h2⟩
  · simp [handleAnswer, h]
  · simp [handleAnswer, h1, h2]

/-- Witness for C9: an empty answer against a graded session, and an
empty question set. -/
theorem domain_errors_reject_witness :
    handleAnswer 10 SessionStatus.graded ⟨[], ThreadStatus.opened⟩ []
        (Except.error []) =
      (⟨[], ThreadStatus.opened⟩,
       some (if ([] : List Char) = [] then AnswerError.emptyAnswer
             else AnswerError.sessionNotInProgress)) ∧
    handleStartExam ⟨[], []⟩ 0 [] = (⟨[], []⟩, some StartError.noQuestions) :=
  domain_errors_reject 10 SessionStatus.graded ⟨[], ThreadStatus.opened⟩ []
    (Except.error []) ⟨[], []⟩ 0 (Or.inl rfl)

/-! ## C10: automated and human score fields are independent -/

/-- C10. Upserting an automated score over an existing row rewrites only
the automated score and feedback and preserves the teacher override and
comment; updating the teacher score rewrites only the teacher fields and
preserves the automated ones; both leave every other thread's row alone,
and re-running the automated upsert after a teacher override keeps the
override intact. -/
theorem score_upsert_frame (db : ℕ → Option QuestionScore) (threadID : ℕ)
    (llmScore ts : ℚ) (llmFeedback c : List Char) (old : QuestionScore)
    (h : db threadID = some old) :
    UpsertScore db threadID llmScore llmFeedback threadID =
      some { llmScore := llmScore, llmFeedback := llmFeedback,
             teacherScore := old.teacherScore,
             teacherComment := old.teacherComment } ∧
    (∀ t, t ≠ threadID → UpsertScore db threadID llmScore llmFeedback t = db t) ∧
    UpdateTeacherScore db threadID ts c threadID =
      some { llmScore := old.llmScore, llmFeedback := old.llmFeedback,
             teacherScore := some ts, teacherComment := c } ∧
    (∀ t, t ≠ threadID → UpdateTeacherScore db threadID ts c t = db t) ∧
    UpsertScore (UpdateTeacherScore db threadID ts c) threadID llmScore
        llmFeedback threadID =
      some { llmScore := llmScore, llmFeedback := llmFeedback,
             teacherScore := some ts, teacherComment := c } := by
  refine ⟨?_, ?_, ?_, ?_, ?_⟩
  · simp [UpsertScore, h]
  · intro t ht; simp [UpsertScore, ht]
  · simp [UpdateTeacherScore, h]
  · intro t ht; simp [UpdateTeacherScore, ht]
  · simp [UpsertScore, UpdateTeacherScore, h]

/-- Witness for C10 at a concrete one-row score table. -/
theorem score_upsert_frame_witness :
    UpsertScore (fun t => if t = 5 then some ⟨(15 : ℚ)/2, "ok".toList, none, []⟩ else none)
        5 8 "upd".toList 5 =
      some { llmScore := 8, llmFeedback := "upd".toList,
             teacherScore := (⟨(15 : ℚ)/2, "ok".toList, none, []⟩ : QuestionScore).teacherScore,
             teacherComment := (⟨(15 : ℚ)/2, "ok".toList, none, []⟩ : QuestionScore).teacherComment } ∧
    (∀ t, t ≠ 5 →
      UpsertScore (fun t => if t = 5 then some ⟨(15 : ℚ)/2, "ok".toList, none, []⟩ else none)
        5 8 "upd".toList t =
      (fun t => if t = 5 then some ⟨(15 : ℚ)/2, "ok".toList, none, []⟩ else none) t) ∧
    UpdateTeacherScore (fun t => if t = 5 then some ⟨(15 : ℚ)/2, "ok".toList, none, []⟩ else none)
        5 9 "Great".toList 5 =
      some { llmScore := (⟨(15 : ℚ)/2, "ok".toList, none, []⟩ : QuestionScore).llmScore,
             llmFeedback := (⟨(15 : ℚ)/2, "ok".toList, none, []⟩ : QuestionScore).llmFeedback,
             teacherScore := some 9, teacherComment := "Great".toList } ∧
    (∀ t, t ≠ 5 →
      UpdateTeacherScore (fun t => if t = 5 then some ⟨(15 : ℚ)/2, "ok".toList, none, []⟩ else none)
        5 9 "Great".toList t =
      (fun t => if t = 5 then some ⟨(15 : ℚ)/2, "ok".toList, none, []⟩ else none) t) ∧
    UpsertScore (UpdateTeacherScore
        (fun t => if t = 5 then some ⟨(15 : ℚ)/2, "ok".toList, none, []⟩ else none)
        5 9 "Great".toList) 5 8 "upd".toList 5 =
      some { llmScore := 8, llmFeedback := "upd".toList,
             teacherScore := some 9, teacherComment := "Great".toList } :=
  score_upsert_frame (fun t => if t = 5 then some ⟨(15 : ℚ)/2, "ok".toList, none, []⟩ else none)
    5 8 9 "upd".toList "Great".toList ⟨(15 : ℚ)/2, "ok".toList, none, []⟩ (by simp)

/-! ## Helper lemmas for the grading loop accumulators -/

/-- One accumulator step adds the persisted per-thread score to the
score total and the thread's max points to the denominator. -/
theorem submitAccStep_eq (acc : ℚ × ℤ) (t : SubmitThread) :
    submitAccStep acc t = (acc.1 + (gradeThreadStep t).score, acc.2 + t.maxPoints) := by
  unfold submitAccStep gradeThreadStep
  by_cases hm : t.messages = []
  · simp [hm]
  · simp only [hm, if_false]
    cases t.llmOutcome <;> simp

/-- The grading-loop fold, from an arbitrary accumulator. -/
theorem handleSubmitTotals_aux (threads : List SubmitThread) :
    ∀ acc : ℚ × ℤ,
      threads.foldl submitAccStep acc =
        (acc.1 + ((threads.map gradeThreadStep).map (fun o => o.score)).sum,
         acc.2 + (threads.map (fun t => t.maxPoints)).sum) := by
  induction threads with
  | nil => intro acc; simp
  | cons t ts ih =>
      intro acc
      rw [List.foldl_cons, ih, submitAccStep_eq]
      simp only [List.map_cons, List.sum_cons, Prod.mk.injEq]
      constructor <;> ring

/-- The loop's accumulators equal the sum of the persisted per-thread
scores and the sum of max points over every thread. -/
theorem handleSubmitTotals_eq (threads : List SubmitThread) :
    handleSubmitTotals threads =
      (((threads.map gradeThreadStep).map (fun o => o.score)).sum,
       (threads.map (fun t => t.maxPoints)).sum) := by
  unfold handleSubmitTotals
  rw [handleSubmitTotals_aux]
  simp

/-! ## C2: partial-failure-tolerant grading and the aggregate grade -/

/-- C2. The grading loop produces one persisted outcome per thread (it
is never aborted by one item's failure); a thread whose gateway call
failed is recorded with score 0 and feedback carrying the failure cause,
and its max points are still counted; the denominator equals the sum of
max points over every thread; the numerator equals the sum of persisted
scores; the persisted overall grade is `100 * achieved / maxPoints`
(0 when the denominator is 0); and the session status ends `graded`. -/
theorem handleSubmit_grading_spec (now : ℕ) (sess : SessionState)
    (threads : List SubmitThread) :
    (threads.map gradeThreadStep).length = threads.length ∧
    (∀ t ∈ threads, ∀ e, t.messages ≠ [] → t.llmOutcome = Except.error e →
      (gradeThreadStep t).score = 0 ∧ e <:+ (gradeThreadStep t).feedback) ∧
    (handleSubmitTotals threads).2 = (threads.map (fun t => t.maxPoints)).sum ∧
    (handleSubmitTotals threads).1 =
      ((threads.map gradeThreadStep).map (fun o => o.score)).sum ∧
    (0 < (threads.map (fun t => t.maxPoints)).sum →
      overallGrade threads =
        100 * ((threads.map gradeThreadStep).map (fun o => o.score)).sum /
          (((threads.map (fun t => t.maxPoints)).sum : ℤ) : ℚ)) ∧
    ((threads.map (fun t => t.maxPoints)).sum = 0 → overallGrade threads = 0) ∧
    (handleSubmit now sess threads).grade = some (overallGrade threads) ∧
    (handleSubmit now sess threads).status = SessionStatus.graded := by
  have htot := handleSubmitTotals_eq threads
  refine ⟨by simp, ?_, ?_, ?_, ?_, ?_, ?_, ?_⟩
  · intro t _ e hm he
    unfold gradeThreadStep
    simp only [hm, if_false, he]
    exact ⟨by simp, "Grading error: ".toList, rfl⟩
  · rw [htot]
  · rw [htot]
  · intro hpos
    unfold overallGrade
    rw [htot]
    simp only
    rw [if_pos hpos]
    ring
  · intro hzero
    unfold overallGrade
    rw [htot]
    simp [hzero]
  · simp [handleSubmit, UpdateSessionStatus, UpsertGrade]
  · simp [handleSubmit, UpdateSessionStatus, UpsertGrade]

/-- Witness for C2 at the spec's partial-failure scenario: three
one-question threads with max points 10 each — one graded normally with
score 8, one whose gateway call fails, one unanswered. -/
theorem handleSubmit_grading_spec_witness :
    (handleSubmitTotals
      [⟨10, [⟨Role.student, "a".toList⟩], Except.ok ⟨8, 10, "good".toList, false, []⟩⟩,
       ⟨10, [⟨Role.student, "b".toList⟩], Except.error "boom".toList⟩,
       ⟨10, [], Except.error []⟩]).2 =
      (([⟨10, [⟨Role.student, "a".toList⟩], Except.ok ⟨8, 10, "good".toList, false, []⟩⟩,
         ⟨10, [⟨Role.student, "b".toList⟩], Except.error "boom".toList⟩,
         ⟨10, [], Except.error []⟩] : List SubmitThread).map
        (fun t => t.maxPoints)).sum ∧
    (handleSubmit 1 freshSession
      [⟨10, [⟨Role.student, "a".toList⟩], Except.ok ⟨8, 10, "good".toList, false, []⟩⟩,
       ⟨10, [⟨Role.student, "b".toList⟩], Except.error "boom".toList⟩,
       ⟨10, [], Except.error []⟩]).status = SessionStatus.graded ∧
    (gradeThreadStep
      ⟨10, [⟨Role.student, "b".toList⟩], Except.error "boom".toList⟩).score = 0 ∧
    "boom".toList <:+ (gradeThreadStep
      ⟨10, [⟨Role.student, "b".toList⟩], Except.error "boom".toList⟩).feedback := by
  have h := handleSubmit_grading_spec 1 freshSession
    [⟨10, [⟨Role.student, "a".toList⟩], Except.ok ⟨8, 10, "good".toList, false, []⟩⟩,
     ⟨10, [⟨Role.student, "b".toList⟩], Except.error "boom".toList⟩,
     ⟨10, [], Except.error []⟩]
  have hmem : (⟨10, [⟨Role.student, "b".toList⟩], Except.error "boom".toList⟩ :
      SubmitThread) ∈
      [⟨10, [⟨Role.student, "a".toList⟩], Except.ok ⟨8, 10, "good".toList, false, []⟩⟩,
       ⟨10, [⟨Role.student, "b".toList⟩], Except.error "boom".toList⟩,
       ⟨10, [], Except.error []⟩] :=
    List.mem_cons_of_mem _ (List.mem_cons_self _ _)
  exact ⟨h.2.2.1, h.2.2.2.2.2.2.2,
    (h.2.1 _ hmem "boom".toList (by simp) rfl).1,
    (h.2.1 _ hmem "boom".toList (by simp) rfl).2⟩

/-! ## C5: unanswered threads at submission time -/

/-- C5 counterexample: the literal feedback recorded for a thread with
zero messages is `"No answer provided."` with a trailing period, not the
claimed exact text `"No answer provided"`. -/
theorem noAnswer_feedback_counterexample :
    (gradeThreadStep ⟨10, [], Except.error []⟩).score = 0 ∧
    (gradeThreadStep ⟨10, [], Except.error []⟩).calledGateway = false ∧
    (gradeThreadStep ⟨10, [], Except.error []⟩).feedback ≠ "No answer provided".toList ∧
    (gradeThreadStep ⟨10, [], Except.error []⟩).feedback = "No answer provided.".toList := by
  decide

/-- C5 amended: a thread with zero messages at submission time is
scored 0 with the literal feedback `"No answer provided."` (trailing
period), no gateway call is made for it, and wherever it sits in the
session its question's max points are still added to the running
denominator. -/
theorem submit_empty_thread_spec (t : SubmitThread)
    (pre post : List SubmitThread) (h : t.messages = []) :
    (gradeThreadStep t).score = 0 ∧
    (gradeThreadStep t).feedback = "No answer provided.".toList ∧
    (gradeThreadStep t).calledGateway = false ∧
    (handleSubmitTotals (pre ++ t :: post)).2 =
      (handleSubmitTotals (pre ++ post)).2 + t.maxPoints := by
  have h1 : gradeThreadStep t =
      ⟨0, "No answer provided.".toList, false, false⟩ := by
    unfold gradeThreadStep; simp [h]
  refine ⟨by rw [h1], by rw [h1], by rw [h1], ?_⟩
  rw [handleSubmitTotals_eq, handleSubmitTotals_eq]
  simp only [List.map_append, List.map_cons, List.sum_append, List.sum_cons]
  ring

/-- Witness for C5: an unanswered thread between two graded ones. -/
theorem submit_empty_thread_spec_witness :
    (gradeThreadStep ⟨10, [], Except.ok ⟨1, 1, [], false, []⟩⟩).score = 0 ∧
    (gradeThreadStep ⟨10, [], Except.ok ⟨1, 1, [], false, []⟩⟩).feedback =
      "No answer provided.".toList ∧
    (gradeThreadStep ⟨10, [], Except.ok ⟨1, 1, [], false, []⟩⟩).calledGateway = false ∧
    (handleSubmitTotals
      ([⟨5, [⟨Role.student, "a".toList⟩], Except.ok ⟨3, 5, "fb".toList, false, []⟩⟩] ++
        ⟨10, [], Except.ok ⟨1, 1, [], false, []⟩⟩ ::
        [⟨7, [⟨Role.student, "b".toList⟩], Except.error "x".toList⟩])).2 =
    (handleSubmitTotals
      ([⟨5, [⟨Role.student, "a".toList⟩], Except.ok ⟨3, 5, "fb".toList, false, []⟩⟩] ++
        [⟨7, [⟨Role.student, "b".toList⟩], Except.error "x".toList⟩])).2 + 10 :=
  submit_empty_thread_spec ⟨10, [], Except.ok ⟨1, 1, [], false, []⟩⟩
    [⟨5, [⟨Role.student, "a".toList⟩], Except.ok ⟨3, 5, "fb".toList, false, []⟩⟩]
    [⟨7, [⟨Role.student, "b".toList⟩], Except.error "x".toList⟩] rfl

/-! ## C7: session status ordering and the submission timestamp -/

/-- C7 counterexample: `UpdateSessionStatus` enforces no ordering, so
submitting an already-graded session regresses its status from `graded`
back through `submitted` and sets `submitted_at` a second time. -/
theorem sessionStatus_counterexample :
    (handleSubmit 1 freshSession []).status = SessionStatus.graded ∧
    ((handleSubmitTrace 2 (handleSubmit 1 freshSession []) []).map
        (fun s => s.status)) =
      [SessionStatus.graded, SessionStatus.submitted, SessionStatus.grading,
       SessionStatus.graded] ∧
    statusRank SessionStatus.submitted < statusRank SessionStatus.graded ∧
    (handleSubmit 1 freshSession []).submittedAt = some 1 ∧
    (handleSubmit 2 (handleSubmit 1 freshSession []) []).submittedAt = some 2 := by
  decide

/-- C7 amended: within a single submission of an `in_progress` session
the status moves strictly forward with no skipped step
(`in_progress → submitted → grading → graded`, consecutive ranks) and
`submitted_at` is set exactly once, on the `in_progress → submitted`
transition, remaining unchanged through grading, the graded write and
review finalization (which moves the status forward to `reviewed`); the
store itself enforces no ordering, so a second submission can regress
the status and overwrite `submitted_at`. -/
theorem session_forward_within_submission (now now2 : ℕ) (sess : SessionState)
    (threads : List SubmitThread) (fg : ℚ) (rid : ℕ)
    (h1 : sess.status = SessionStatus.inProgress)
    (h2 : sess.submittedAt = none) :
    ((handleSubmitTrace now sess threads).map (fun s => s.status)) =
      [SessionStatus.inProgress, SessionStatus.submitted, SessionStatus.grading,
       SessionStatus.graded] ∧
    List.Chain' (fun a b => statusRank a + 1 = statusRank b)
      ((handleSubmitTrace now sess threads).map (fun s => s.status)) ∧
    ((handleSubmitTrace now sess threads).map (fun s => s.submittedAt)) =
      [none, some now, some now, some now] ∧
    (handleFinalize now2 (handleSubmit now sess threads) fg rid).status =
      SessionStatus.reviewed ∧
    statusRank (handleSubmit now sess threads).status <
      statusRank (handleFinalize now2 (handleSubmit now sess threads) fg rid).status ∧
    (handleFinalize now2 (handleSubmit now sess threads) fg rid).submittedAt =
      some now := by
  have hmap : ((handleSubmitTrace now sess threads).map (fun s => s.status)) =
      [SessionStatus.inProgress, SessionStatus.submitted, SessionStatus.grading,
       SessionStatus.graded] := by
    simp [handleSubmitTrace, UpdateSessionStatus, UpsertGrade, h1]
  refine ⟨hmap, ?_, ?_, ?_, ?_, ?_⟩
  · rw [hmap]
    simp [List.chain'_cons, statusRank]
  · simp [handleSubmitTrace, UpdateSessionStatus, UpsertGrade, h2]
  · simp [handleFinalize, UpdateSessionStatus, FinalizeGrade]
  · simp [handleFinalize, handleSubmit, UpdateSessionStatus, UpsertGrade,
      FinalizeGrade, statusRank]
  · simp [handleFinalize, handleSubmit, UpdateSessionStatus, UpsertGrade,
      FinalizeGrade]

/-- Witness for C7: a fresh `in_progress` session submitted at time 3
and finalized at time 9. -/
theorem session_forward_within_submission_witness :
    ((handleSubmitTrace 3 freshSession []).map (fun s => s.status)) =
      [SessionStatus.inProgress, SessionStatus.submitted, SessionStatus.grading,
       SessionStatus.graded] ∧
    List.Chain' (fun a b => statusRank a + 1 = statusRank b)
      ((handleSubmitTrace 3 freshSession []).map (fun s => s.status)) ∧
    ((handleSubmitTrace 3 freshSession []).map (fun s => s.submittedAt)) =
      [none, some 3, some 3, some 3] ∧
    (handleFinalize 9 (handleSubmit 3 freshSession []) 85 7).status =
      SessionStatus.reviewed ∧
    statusRank (handleSubmit 3 freshSession []).status <
      statusRank (handleFinalize 9 (handleSubmit 3 freshSession []) 85 7).status ∧
    (handleFinalize 9 (handleSubmit 3 freshSession []) 85 7).submittedAt = some 3 :=
  session_forward_within_submission 3 9 freshSession [] 85 7 rfl rfl

/-! ## C3: how many assessor messages a thread can accumulate -/

/-- The validator never changes the `need_followup` flag. -/
theorem validateGradeResult_needFollowup (raw : GradeResult) (mp : ℤ) :
    (validateGradeResult raw mp).needFollowup = raw.needFollowup := rfl

/-- A successful turn appends exactly one student and one assessor
message, so the assessor-message count grows by one. -/
theorem countFollowups_answerStep (mp : ℤ) (s : ThreadState) (a : List Char)
    (raw : GradeResult) :
    CountFollowups (answerStep mp s a raw).msgs = CountFollowups s.msgs + 1 := by
  simp [answerStep, CountFollowups, List.countP_append, List.countP_cons]

/-- Strengthened invariant for the guarded transition system: a thread
that is not yet completed has at most `maxFollowups` assessor messages,
and any reachable thread has at most `maxFollowups + 1`. -/
theorem guarded_invariant (mp : ℤ) (maxFollowups : ℕ) (s : ThreadState)
    (h : ReachableThreadGuarded mp maxFollowups s) :
    (s.status ≠ ThreadStatus.completed → CountFollowups s.msgs ≤ maxFollowups) ∧
    CountFollowups s.msgs ≤ maxFollowups + 1 := by
  induction h with
  | init => simp [CountFollowups]
  | step s a raw _ hne hst hob ih =>
      have hcount := countFollowups_answerStep mp s a raw
      by_cases hnf : raw.needFollowup = true
      · have hlt : CountFollowups s.msgs < maxFollowups := by
          by_contra hge
          have := hob (Nat.le_of_not_lt hge)
          rw [this] at hnf
          exact Bool.false_ne_true hnf
        constructor
        · intro _
          rw [hcount]
          omega
        · rw [hcount]
          omega
      · have hstat : (answerStep mp s a raw).status = ThreadStatus.completed := by
          simp [answerStep, answerTurnStatus, validateGradeResult_needFollowup,
            Bool.eq_false_iff.mpr, hnf]
        have hle : CountFollowups s.msgs ≤ maxFollowups := ih.1 hst
        constructor
        · intro hne'
          exact absurd hstat hne'
        · rw [hcount]
          omega

/-- C3 counterexample: with a configured maximum of one follow-up, two
ordinary turns (the assessor asks its one follow-up, then delivers its
closing feedback) leave two assessor-authored messages in the thread —
the count exceeds the configured maximum in a reachable state. -/
theorem followup_bound_counterexample :
    ReachableThread 10 1
      (answerStep 10
        (answerStep 10 ⟨[], ThreadStatus.opened⟩ "a".toList
          ⟨4, 10, "f".toList, true, "x".toList⟩)
        "b".toList ⟨7, 10, "g".toList, false, []⟩) ∧
    1 < CountFollowups (answerStep 10
        (answerStep 10 ⟨[], ThreadStatus.opened⟩ "a".toList
          ⟨4, 10, "f".toList, true, "x".toList⟩)
        "b".toList ⟨7, 10, "g".toList, false, []⟩).msgs := by
  constructor
  · exact ReachableThread.step _ _ _
      (ReachableThread.step _ _ _ ReachableThread.init (by decide)) (by decide)
  · decide

/-- C3 amended: the assessor-message count can exceed the configured
maximum (see the counterexample — the closing feedback message arrives
after the follow-up budget is spent, and the handler never inspects the
thread status); what holds is the bound `maxFollowups + 1`, provided
respondent turns only reach threads that are not yet completed and the
assessor obeys the prompt's instruction to stop requesting follow-ups at
the maximum. -/
theorem guarded_followup_bound (mp : ℤ) (maxFollowups : ℕ) (s : ThreadState)
    (h : ReachableThreadGuarded mp maxFollowups s) :
    CountFollowups s.msgs ≤ maxFollowups + 1 :=
  (guarded_invariant mp maxFollowups s h).2

/-- Witness for C3's amended bound after one guarded turn. -/
theorem guarded_followup_bound_witness :
    CountFollowups (answerStep 10 ⟨[], ThreadStatus.opened⟩ "a".toList
      ⟨4, 10, "f".toList, true, "x".toList⟩).msgs ≤ 1 + 1 :=
  guarded_followup_bound 10 1 _
    (ReachableThreadGuarded.step _ _ _ ReachableThreadGuarded.init
      (by decide) (by decide) (fun hle => absurd hle (by decide)))

/-! ## Helper lemmas for the sanitizer's tag matcher -/

/-- A successful name match consumes a prefix: the remainder is no
longer than the input. -/
theorem matchNameCI_some_length :
    ∀ (name t rem : List Char), matchNameCI name t = some rem → rem.length ≤ t.length := by
  intro name
  induction name with
  | nil =>
      intro t rem h
      simp only [matchNameCI, Option.some.injEq] at h
      subst h
      exact le_refl _
  | cons n ns ih =>
      intro t rem h
      cases t with
      | nil => simp [matchNameCI] at h
      | cons c cs =>
          simp only [matchNameCI] at h
          by_cases hf : foldChar c = foldChar n
          · rw [if_pos hf] at h
            have := ih cs rem h
            simp only [List.length_cons]
            omega
          · rw [if_neg hf] at h
            cases h

/-- A successful body match consumes at least the closing `>`. -/
theorem matchBody_some_length {s rem : List Char} (h : matchBody s = some rem) :
    rem.length < s.length := by
  unfold matchBody at h
  cases hd : s.dropWhile (fun c => decide (c ≠ '>')) with
  | nil => rw [hd] at h; cases h
  | cons x r =>
      rw [hd] at h
      have hle : (x :: r).length ≤ s.length := by
        rw [← hd]
        exact (List.dropWhile_suffix _).length_le
      cases h
      simp only [List.length_cons] at hle
      omega

/-- A successful boundary-and-body match strictly shrinks the input. -/
theorem matchAfterName_some_length {s rem : List Char}
    (h : matchAfterName s = some rem) : rem.length < s.length := by
  cases s with
  | nil => cases h
  | cons c cs =>
      have hdef : matchAfterName (c :: cs) =
          if isWordChar c = true then none else matchBody (c :: cs) := rfl
      rw [hdef] at h
      by_cases hw : isWordChar c = true
      · rw [if_pos hw] at h; cases h
      · rw [if_neg hw] at h
        exact matchBody_some_length h

/-- A successful post-`<` match strictly shrinks the input. -/
theorem matchTagOpen_some_length {name rest1 rem : List Char}
    (h : matchTagOpen name rest1 = some rem) : rem.length < rest1.length := by
  unfold matchTagOpen at h
  obtain ⟨mid, h1, h2⟩ := Option.bind_eq_some.mp h
  have l1 := matchNameCI_some_length _ _ _ h1
  have l2 := matchAfterName_some_length h2
  have l3 : (rest1.dropWhile isGoRegexSpace).length ≤ rest1.length :=
    (List.dropWhile_suffix _).length_le
  omega

/-- A successful tag match strictly shrinks the input (it consumes at
least `<` and `>`), which is why fuel `s.length` suffices in
`replaceTagFuel`. -/
theorem matchTagAt_some_length {name s rem : List Char}
    (h : matchTagAt name s = some rem) : rem.length < s.length := by
  cases s with
  | nil => cases h
  | cons c rest =>
      have hdef : matchTagAt name (c :: rest) =
          if c = '<' then
            matchTagOpen name (if rest.head? = some '/' then rest.tail else rest)
          else none := rfl
      rw [hdef] at h
      by_cases hc : c = '<'
      · rw [if_pos hc] at h
        have hlt := matchTagOpen_some_length h
        have htail : (if rest.head? = some '/' then rest.tail else rest).length ≤
            rest.length := by
          split
          · rw [List.length_tail]; omega
          · exact le_refl _
        simp only [List.length_cons]
        omega
      · rw [if_neg hc] at h
        cases h

/-- Fuel irrelevance: any fuel of at least the list's length computes
the same replacement as the canonical `replaceTag`. -/
theorem replaceTagFuel_congr (name : List Char) :
    ∀ f s, s.length ≤ f → replaceTagFuel name f s = replaceTag name s := by
  intro f
  induction f using Nat.strong_induction_on with
  | _ f ih =>
      intro s hs
      cases s with
      | nil => cases f <;> rfl
      | cons c rest =>
          cases f with
          | zero => simp at hs
          | succ f' =>
              have hlen : rest.length ≤ f' := by
                simp only [List.length_cons] at hs
                omega
              have hL : replaceTagFuel name (f' + 1) (c :: rest) =
                  (match matchTagAt name (c :: rest) with
                   | some rem => replaceTagFuel name f' rem
                   | none => c :: replaceTagFuel name f' rest) := rfl
              have hR : replaceTag name (c :: rest) =
                  (match matchTagAt name (c :: rest) with
                   | some rem => replaceTagFuel name rest.length rem
                   | none => c :: replaceTagFuel name rest.length rest) := rfl
              rw [hL, hR]
              cases hm : matchTagAt name (c :: rest) with
              | some rem =>
                  have hlt := matchTagAt_some_length hm
                  simp only [List.length_cons] at hlt
                  show replaceTagFuel name f' rem = replaceTagFuel name rest.length rem
                  rw [ih f' (by omega) rem (by omega),
                    ih rest.length (by omega) rem (by omega)]
              | none =>
                  show c :: replaceTagFuel name f' rest =
                    c :: replaceTagFuel name rest.length rest
                  rw [ih f' (by omega) rest (by omega)]
                  rfl

/-- Unfolding `replaceTag` at a successful leftmost match: the match is
deleted and scanning resumes after it. -/
theorem replaceTag_cons_of_match {name rest rem : List Char} {c : Char}
    (h : matchTagAt name (c :: rest) = some rem) :
    replaceTag name (c :: rest) = replaceTag name rem := by
  have hlt := matchTagAt_some_length h
  simp only [List.length_cons] at hlt
  have hL : replaceTag name (c :: rest) =
      (match matchTagAt name (c :: rest) with
       | some r => replaceTagFuel name rest.length r
       | none => c :: replaceTagFuel name rest.length rest) := rfl
  rw [hL, h]
  exact replaceTagFuel_congr name rest.length rem (by omega)

/-- Unfolding `replaceTag` when no match starts here: the character is
kept and scanning moves one position right. -/
theorem replaceTag_cons_of_none {name rest : List Char} {c : Char}
    (h : matchTagAt name (c :: rest) = none) :
    replaceTag name (c :: rest) = c :: replaceTag name rest := by
  have hL : replaceTag name (c :: rest) =
      (match matchTagAt name (c :: rest) with
       | some r => replaceTagFuel name rest.length r
       | none => c :: replaceTagFuel name rest.length rest) := rfl
  rw [hL, h]
  rfl

/-- No tag match can start at a character other than `<`. -/
theorem matchTagAt_not_open {nm rest : List Char} {ch : Char}
    (hc : ch ≠ '<') : matchTagAt nm (ch :: rest) = none := by
  have hdef : matchTagAt nm (ch :: rest) =
      if ch = '<' then
        matchTagOpen nm (if rest.head? = some '/' then rest.tail else rest)
      else none := rfl
  rw [hdef, if_neg hc]

/-- `replaceTag` passes over any stretch of text with no `<` unchanged. -/
theorem replaceTag_no_open {name pre l : List Char}
    (hpre : ('<' : Char) ∉ pre) :
    replaceTag name (pre ++ l) = pre ++ replaceTag name l := by
  induction pre with
  | nil => rfl
  | cons c pre ih =>
      have hc : c ≠ '<' := by
        intro h
        exact hpre (by simp [h])
      rw [List.cons_append, replaceTag_cons_of_none (matchTagAt_not_open hc),
        ih (fun h => hpre (List.mem_cons_of_mem _ h))]
      rfl

/-- The `\s` class of the tag patterns is exactly five characters. -/
theorem isGoRegexSpace_cases {c : Char} (h : isGoRegexSpace c = true) :
    c = '\t' ∨ c = '\n' ∨ c = '\x0c' ∨ c = '\r' ∨ c = ' ' := by
  simpa [isGoRegexSpace, decide_eq_true_eq] using h

/-- A character folding to `s` (the first letter of both tag names) is
neither the optional slash nor a `\s` character. -/
theorem foldChar_s_props {c : Char} (h : foldChar c = 's') :
    c ≠ '/' ∧ isGoRegexSpace c = false := by
  constructor
  · intro hc
    subst hc
    exact absurd h (by decide)
  · by_contra hsp
    have hsp' : isGoRegexSpace c = true := by
      cases hx : isGoRegexSpace c
      · exact absurd hx hsp
      · rfl
    rcases isGoRegexSpace_cases hsp' with rfl | rfl | rfl | rfl | rfl <;>
      exact absurd h (by decide)

/-- Dropping while a predicate holds passes over a block where it holds
everywhere. -/
theorem dropWhile_append_of_forall {p : Char → Bool} {ws l : List Char}
    (h : ∀ c ∈ ws, p c = true) :
    (ws ++ l).dropWhile p = l.dropWhile p := by
  induction ws with
  | nil => rfl
  | cons c ws ih =>
      rw [List.cons_append, List.dropWhile_cons, if_pos (h c (List.mem_cons_self _ _))]
      exact ih (fun c hc => h c (List.mem_cons_of_mem _ hc))

/-- The `[^>]*` part runs exactly to the first `>`. -/
theorem dropWhile_ne_gt {b suf : List Char} (hb : ('>' : Char) ∉ b) :
    (b ++ '>' :: suf).dropWhile (fun c => decide (c ≠ '>')) = '>' :: suf := by
  induction b with
  | nil => simp [List.dropWhile_cons]
  | cons c b ih =>
      have hc : c ≠ '>' := by
        intro h
        exact hb (by simp [h])
      rw [List.cons_append, List.dropWhile_cons, if_pos (by simp [hc])]
      exact ih (fun h => hb (List.mem_cons_of_mem _ h))

/-- The case-insensitive name matcher accepts every case variant of the
name and returns exactly the text after it. -/
theorem matchNameCI_forall₂ {name nv : List Char}
    (h : List.Forall₂ (fun n c => foldChar c = foldChar n) name nv) (t : List Char) :
    matchNameCI name (nv ++ t) = some t := by
  induction h with
  | nil => rfl
  | cons hr _ ih =>
      rw [List.cons_append]
      show (if _ then _ else _) = _
      rw [if_pos hr]
      exact ih

/-- After the name, a non-word-char body with no `>` runs to the closing
`>`, which is consumed. -/
theorem matchAfterName_tag {b suf : List Char} (hb : ('>' : Char) ∉ b)
    (hbh : ∀ c, b.head? = some c → isWordChar c = false) :
    matchAfterName (b ++ '>' :: suf) = some suf := by
  cases b with
  | nil =>
      have hdef : matchAfterName ('>' :: suf) =
          if isWordChar '>' = true then none else matchBody ('>' :: suf) := rfl
      rw [List.nil_append, hdef, if_neg (by decide)]
      unfold matchBody
      rw [show ('>' :: suf).dropWhile (fun c => decide (c ≠ '>')) = '>' :: suf from
        dropWhile_ne_gt (b := []) (by simp)]
  | cons c b' =>
      have hw := hbh c rfl
      rw [List.cons_append]
      have hdef : matchAfterName (c :: (b' ++ '>' :: suf)) =
          if isWordChar c = true then none else matchBody (c :: (b' ++ '>' :: suf)) := rfl
      rw [hdef, if_neg (by simp [hw])]
      unfold matchBody
      rw [show (c :: (b' ++ '>' :: suf)) = ((c :: b') ++ '>' :: suf) from rfl,
        dropWhile_ne_gt hb]

/-- A full role-delimiter tag — `<`, optional `/`, any `\s*` run, any
case variant of the name, a word boundary and any `>`-free body up to
the closing `>` — is matched in one step, leaving exactly the text after
the tag. -/
theorem matchTagAt_tag {ns nv ws b sl suf : List Char}
    (hfold : List.Forall₂ (fun n c => foldChar c = foldChar n) ('s' :: ns) nv)
    (hws : ∀ c ∈ ws, isGoRegexSpace c = true)
    (hb : ('>' : Char) ∉ b)
    (hbh : ∀ c, b.head? = some c → isWordChar c = false)
    (hsl : sl = [] ∨ sl = ['/']) :
    matchTagAt ('s' :: ns) ('<' :: (sl ++ ws ++ nv ++ b ++ '>' :: suf)) = some suf := by
  cases hfold with
  | cons hc0 hrest =>
      rename_i c0 nv'
      have hc0s : foldChar c0 = 's' := by
        rw [hc0]; decide
      have hprops := foldChar_s_props hc0s
      have hdef : ∀ rest : List Char, matchTagAt ('s' :: ns) ('<' :: rest) =
          if ('<' : Char) = '<' then
            matchTagOpen ('s' :: ns) (if rest.head? = some '/' then rest.tail else rest)
          else none := fun _ => rfl
      rw [hdef, if_pos rfl]
      have hopen : (if (sl ++ ws ++ (c0 :: nv') ++ b ++ '>' :: suf).head? = some '/' then
            (sl ++ ws ++ (c0 :: nv') ++ b ++ '>' :: suf).tail
          else sl ++ ws ++ (c0 :: nv') ++ b ++ '>' :: suf) =
          ws ++ (c0 :: nv') ++ b ++ '>' :: suf := by
        rcases hsl with rfl | rfl
        · rw [List.nil_append]
          cases ws with
          | nil =>
              rw [List.nil_append]
              have : ((c0 :: nv') ++ b ++ '>' :: suf).head? = some c0 := rfl
              rw [if_neg]
              intro hcontra
              rw [this] at hcontra
              exact hprops.1 (Option.some.injEq _ _ ▸ hcontra)
          | cons w ws' =>
              have hwne : w ≠ '/' := by
                rcases isGoRegexSpace_cases (hws w (List.mem_cons_self _ _)) with
                  rfl | rfl | rfl | rfl | rfl <;> decide
              rw [if_neg]
              intro hcontra
              have : w = '/' := by
                simpa using hcontra
              exact hwne this
        · rw [if_pos (show (['/'] ++ ws ++ (c0 :: nv') ++ b ++ '>' :: suf).head? =
              some '/' from rfl)]
          rfl
      rw [hopen]
      unfold matchTagOpen
      have hdrop : (ws ++ (c0 :: nv') ++ b ++ '>' :: suf).dropWhile isGoRegexSpace =
          (c0 :: nv') ++ b ++ '>' :: suf := by
        rw [List.append_assoc, List.append_assoc,
          dropWhile_append_of_forall hws, ← List.append_assoc]
        rw [show ((c0 :: nv') ++ b ++ '>' :: suf) = c0 :: (nv' ++ b ++ '>' :: suf) by
          simp]
        rw [List.dropWhile_cons, if_neg (by simp [hprops.2])]
      rw [hdrop]
      have hname : matchNameCI ('s' :: ns) ((c0 :: nv') ++ b ++ '>' :: suf) =
          some (b ++ '>' :: suf) := by
        rw [show ((c0 :: nv') ++ b ++ '>' :: suf) = (c0 :: nv') ++ (b ++ '>' :: suf) by
          simp]
        exact matchNameCI_forall₂ (List.Forall₂.cons hc0 hrest) _
      rw [hname]
      exact matchAfterName_tag hb hbh

/-- The head of a dropWhile result fails the predicate. -/
theorem head?_dropWhile_false {p : Char → Bool} :
    ∀ {l : List Char} {c : Char}, (l.dropWhile p).head? = some c → p c = false := by
  intro l
  induction l with
  | nil => intro c h; cases h
  | cons a l ih =>
      intro c h
      rw [List.dropWhile_cons] at h
      by_cases hp : p a = true
      · rw [if_pos hp] at h
        exact ih h
      · rw [if_neg hp] at h
        have : a = c := by simpa using h
        subst this
        cases hx : p a
        · rfl
        · exact absurd hx hp

/-- `trimSpace` output never starts with white space. -/
theorem trimSpace_head {s : List Char} {c : Char}
    (h : (trimSpace s).head? = some c) : isUnicodeSpace c = false := by
  have hpre : trimSpace s <+: s.dropWhile isUnicodeSpace := by
    unfold trimSpace
    have hsuf := List.dropWhile_suffix
      (l := (s.dropWhile isUnicodeSpace).reverse) isUnicodeSpace
    have := hsuf.reverse
    rwa [List.reverse_reverse] at this
  have hne : trimSpace s ≠ [] := by
    intro he
    rw [he] at h
    cases h
  obtain ⟨t, ht⟩ := hpre
  have hh : (trimSpace s).head? = (s.dropWhile isUnicodeSpace).head? := by
    rw [← ht]
    exact (List.head?_append_of_ne_nil _ hne).symm
  exact head?_dropWhile_false (hh ▸ h)

/-- `trimSpace` output never ends with white space. -/
theorem trimSpace_getLast {s : List Char} {c : Char}
    (h : (trimSpace s).getLast? = some c) : isUnicodeSpace c = false := by
  unfold trimSpace at h
  rw [List.getLast?_reverse] at h
  exact head?_dropWhile_false h

/-- `sanitizeAnswer` with its intermediate variables expanded. -/
theorem sanitizeAnswer_eq (answer : List Char) :
    sanitizeAnswer answer =
      if trimSpace (replaceTag systemInstructionsTag
          (replaceTag studentAnswerTag answer)) = [] then noAnswerPlaceholder
      else if 10000 < (trimSpace (replaceTag systemInstructionsTag
          (replaceTag studentAnswerTag answer))).length then
        (trimSpace (replaceTag systemInstructionsTag
          (replaceTag studentAnswerTag answer))).take 10000 ++ truncationMarker
      else trimSpace (replaceTag systemInstructionsTag
        (replaceTag studentAnswerTag answer)) := rfl

/-- The two tag names in head-normal form. -/
theorem studentAnswerTag_cons : studentAnswerTag = 's' :: "tudent-answer".toList := by
  decide

/-- The system-instructions tag name in head-normal form. -/
theorem systemInstructionsTag_cons :
    systemInstructionsTag = 's' :: "ystem-instructions".toList := by
  decide

/-! ## C8: sanitization of respondent text -/

/-- C8. Sanitization strips every role-delimiter tag naming the
respondent-answer or system-instruction channel — for any case variant
of either name, optional closing slash, any white-space run and any
`>`-free attribute junk, the whole tag is deleted in place and
surrounding text is preserved; the stripped result is trimmed so it
never starts or ends with white space; an empty result is replaced by
the literal non-empty placeholder, so the assessor never receives an
empty evaluation target; and a result over the 10,000-rune ceiling is
cut to its first 10,000 runes with the explicit truncation marker
appended, never silently dropped. -/
theorem sanitizeAnswer_spec (s pre sl ws nv nv2 b suf : List Char)
    (hpre : ('<' : Char) ∉ pre)
    (hsl : sl = [] ∨ sl = ['/'])
    (hws : ∀ c ∈ ws, isGoRegexSpace c = true)
    (hfold : List.Forall₂ (fun n c => foldChar c = foldChar n) studentAnswerTag nv)
    (hfold2 : List.Forall₂ (fun n c => foldChar c = foldChar n) systemInstructionsTag nv2)
    (hb : ('>' : Char) ∉ b)
    (hbh : ∀ c, b.head? = some c → isWordChar c = false) :
    sanitizeAnswer s ≠ [] ∧
    (trimSpace (replaceTag systemInstructionsTag (replaceTag studentAnswerTag s)) = [] →
      sanitizeAnswer s = noAnswerPlaceholder) ∧
    (∀ c, (trimSpace (replaceTag systemInstructionsTag
        (replaceTag studentAnswerTag s))).head? = some c → isUnicodeSpace c = false) ∧
    (∀ c, (trimSpace (replaceTag systemInstructionsTag
        (replaceTag studentAnswerTag s))).getLast? = some c → isUnicodeSpace c = false) ∧
    (10000 < (trimSpace (replaceTag systemInstructionsTag
        (replaceTag studentAnswerTag s))).length →
      sanitizeAnswer s =
        (trimSpace (replaceTag systemInstructionsTag
          (replaceTag studentAnswerTag s))).take 10000 ++ truncationMarker) ∧
    (trimSpace (replaceTag systemInstructionsTag (replaceTag studentAnswerTag s)) ≠ [] →
      (trimSpace (replaceTag systemInstructionsTag
        (replaceTag studentAnswerTag s))).length ≤ 10000 →
      sanitizeAnswer s =
        trimSpace (replaceTag systemInstructionsTag (replaceTag studentAnswerTag s))) ∧
    replaceTag studentAnswerTag (pre ++ '<' :: (sl ++ ws ++ nv ++ b ++ '>' :: suf)) =
      pre ++ replaceTag studentAnswerTag suf ∧
    replaceTag systemInstructionsTag
        (pre ++ '<' :: (sl ++ ws ++ nv2 ++ b ++ '>' :: suf)) =
      pre ++ replaceTag systemInstructionsTag suf := by
  refine ⟨?_, ?_, fun c h => trimSpace_head h, fun c h => trimSpace_getLast h,
    ?_, ?_, ?_, ?_⟩
  · rw [sanitizeAnswer_eq]
    split
    · decide
    · split
      · intro hcontra
        have := List.append_eq_nil.mp hcontra
        exact absurd this.2 (by decide)
      · assumption
  · intro hnil
    rw [sanitizeAnswer_eq, if_pos hnil]
  · intro hlong
    rw [sanitizeAnswer_eq,
      if_neg (by intro hnil; rw [hnil] at hlong; simp at hlong),
      if_pos hlong]
  · intro hne hlen
    rw [sanitizeAnswer_eq, if_neg hne, if_neg (by omega)]
  · rw [studentAnswerTag_cons] at hfold ⊢
    rw [replaceTag_no_open hpre,
      replaceTag_cons_of_match (matchTagAt_tag hfold hws hb hbh hsl)]
  · rw [systemInstructionsTag_cons] at hfold2 ⊢
    rw [replaceTag_no_open hpre,
      replaceTag_cons_of_match (matchTagAt_tag hfold2 hws hb hbh hsl)]

/-- Witness for C8: a concrete input, a closing mixed-case
student-answer tag and an upper-case system-instructions tag, each with
a leading slash and a space, embedded between `"ab"` and `"rest"`. -/
theorem sanitizeAnswer_spec_witness :
    sanitizeAnswer "  hi  ".toList ≠ [] ∧
    (trimSpace (replaceTag systemInstructionsTag
        (replaceTag studentAnswerTag "  hi  ".toList)) = [] →
      sanitizeAnswer "  hi  ".toList = noAnswerPlaceholder) ∧
    (∀ c, (trimSpace (replaceTag systemInstructionsTag
        (replaceTag studentAnswerTag "  hi  ".toList))).head? = some c →
      isUnicodeSpace c = false) ∧
    (∀ c, (trimSpace (replaceTag systemInstructionsTag
        (replaceTag studentAnswerTag "  hi  ".toList))).getLast? = some c →
      isUnicodeSpace c = false) ∧
    (10000 < (trimSpace (replaceTag systemInstructionsTag
        (replaceTag studentAnswerTag "  hi  ".toList))).length →
      sanitizeAnswer "  hi  ".toList =
        (trimSpace (replaceTag systemInstructionsTag
          (replaceTag studentAnswerTag "  hi  ".toList))).take 10000 ++
          truncationMarker) ∧
    (trimSpace (replaceTag systemInstructionsTag
        (replaceTag studentAnswerTag "  hi  ".toList)) ≠ [] →
      (trimSpace (replaceTag systemInstructionsTag
        (replaceTag studentAnswerTag "  hi  ".toList))).length ≤ 10000 →
      sanitizeAnswer "  hi  ".toList =
        trimSpace (replaceTag systemInstructionsTag
          (replaceTag studentAnswerTag "  hi  ".toList))) ∧
    replaceTag studentAnswerTag ("ab".toList ++ '<' ::
        (['/'] ++ [' '] ++ "Student-Answer".toList ++ [] ++ '>' :: "rest".toList)) =
      "ab".toList ++ replaceTag studentAnswerTag "rest".toList ∧
    replaceTag systemInstructionsTag ("ab".toList ++ '<' ::
        (['/'] ++ [' '] ++ "SYSTEM-instructions".toList ++ [] ++ '>' :: "rest".toList)) =
      "ab".toList ++ replaceTag systemInstructionsTag "rest".toList :=
  sanitizeAnswer_spec "  hi  ".toList "ab".toList ['/'] [' ']
    "Student-Answer".toList "SYSTEM-instructions".toList [] "rest".toList
    (by decide) (Or.inr rfl) (by decide) (by decide) (by decide) (by decide)
    (fun c h => by cases h)

end Examiner
